import Mathlib

/-!
Shallow embedding of `src/main.py` (PDF-agent service).

The agent loop `run_pdf_agent` drives a chat with an external model.  We
embed the model as an oracle `Nat → ModelResponse` indexed by the number of
`send_message` operations issued so far: the loop is deterministic, so any
model behavior (even one depending on the message history) induces such a
stream of responses, and the loop consumes them in send order.  Tool
execution (`parse_pdf_from_url`) is network I/O whose result is only relayed
back to the model inside a send; under the send-indexed oracle the relayed
content cannot influence later responses, so the loop's control flow, send
count and returned text do not depend on the tool's output.
-/

namespace DemoAgent

/-- One entry of a Gemini `function_call` part: `function_call.name` and
`dict(function_call.args)` (argument values kept as opaque strings). -/
structure FunctionCall where
  name : String
  args : List (String × String)
deriving DecidableEq

/-- One element of `response.candidates[0].content.parts`.  The Python code
tests `hasattr(part, 'function_call') and part.function_call`; a part whose
`function_call` is absent or falsy is modelled as `none`. -/
structure RespPart where
  function_call : Option FunctionCall
deriving DecidableEq

/-- A model response: its ordered parts and the value of `response.text`. -/
structure ModelResponse where
  parts : List RespPart
  text : String
deriving DecidableEq

/-- `tool_functions = {"parse_pdf_from_url": parse_pdf_from_url}` — the keys
of the registry; membership mirrors `fn_name in tool_functions`. -/
def tool_functions : List String := ["parse_pdf_from_url"]

/-- Lines 135-148: scan `response.candidates[0].content.parts` in order; the
call that gets executed is the first `function_call` part whose name is a key
of `tool_functions` (parts with unregistered names are passed over by the
`if fn_name in tool_functions` test and the scan continues). -/
def executed_call (r : ModelResponse) : Option FunctionCall :=
  (r.parts.filterMap RespPart.function_call).find?
    (fun fc => tool_functions.contains fc.name)

/-- Observable outcome of one `run_pdf_agent` call: how many
`chat.send_message` operations were issued, which tool calls were executed,
and the returned string. -/
structure AgentRun where
  sends : Nat
  executed : List FunctionCall
  result : String
deriving DecidableEq

/-- Lines 127-172, the `while iteration < max_iterations` loop.  `fuel` is
the number of remaining iterations, `sent` the number of sends issued so far.
Each iteration sends once (line 131); if a registered call is found it is
executed, its result is sent back (line 152, a second send) and the text of
that second response is returned (line 166).  If the response has
`function_call` parts but none registered, `has_function_call` is true, so
the line-169 check fails and the loop proceeds to the next iteration.  If it
has no `function_call` part at all, the response's text is returned. -/
def run_loop (model : Nat → ModelResponse) : Nat → Nat → AgentRun
  | 0, sent => ⟨sent, [], "Max iterations reached"⟩
  | fuel+1, sent =>
    let response := model sent
    match executed_call response with
    | some fc => ⟨sent + 2, [fc], (model (sent + 1)).text⟩
    | none =>
      if (response.parts.filterMap RespPart.function_call).isEmpty then
        ⟨sent + 1, [], response.text⟩
      else
        run_loop model fuel (sent + 1)

/-- Line 112: `run_pdf_agent(user_prompt, system_prompt, max_iterations)`.
`max_iterations` is a Python int; the `while iteration < max_iterations`
loop runs `max(0, max_iterations)` times, i.e. `Int.toNat`. -/
def run_pdf_agent (model : Nat → ModelResponse) (max_iterations : Int) : AgentRun :=
  run_loop model max_iterations.toNat 0

/-- Outcome record of one tool execution, the dict built at lines 70-81:
keys `status`, `text_content`, `message`. -/
structure ToolInvocationResult where
  status : String
  text_content : String
  message : String
deriving DecidableEq

/-- External behavior of the `try` block of `parse_pdf_from_url` for one URL:
either the fetch and `fitz.open` succeed and the pages yield these text
chunks, or some step raises an exception with message `str(e)`. -/
inductive FetchOutcome where
  | pages (texts : List String)
  | raised (msg : String)

/-- Lines 55-81: `parse_pdf_from_url(pdf_url, write_images)`.  `world` is the
behavior of the network/PDF libraries per URL.  On success the page texts are
concatenated (`text += page.get_text()`); on any exception the function
returns the error dict instead of raising.  The `write_images` parameter is
accepted but never read in the body. -/
def parse_pdf_from_url (world : String → FetchOutcome) (pdf_url : String)
    ( write_images : Bool) : ToolInvocationResult :=
  match world pdf_url with
  | .pages ts => ⟨"success", String.join ts, "Success"⟩
  | .raised e => ⟨"error1", "", e⟩

/-! ### Helper lemmas about the loop -/

theorem run_loop_sends_le (model : Nat → ModelResponse) (fuel sent : Nat) :
    (run_loop model fuel sent).sends ≤ sent + fuel + 1 := by
  induction fuel generalizing sent with
  | zero => simp [run_loop]
  | succ n ih =>
    simp only [run_loop]
    split
    · simp
    · split
      · simp
      · have := ih (sent + 1)
        omega

theorem run_loop_executed_le_one (model : Nat → ModelResponse) (fuel sent : Nat) :
    ((run_loop model fuel sent).executed).length ≤ 1 := by
  induction fuel generalizing sent with
  | zero => simp [run_loop]
  | succ n ih =>
    simp only [run_loop]
    split
    · simp
    · split
      · simp
      · exact ih (sent + 1)

theorem run_loop_all_unregistered (nm : String) (ags : List (String × String))
    (txt : String) (h : tool_functions.contains nm = false) (fuel sent : Nat) :
    run_loop (fun _ => ⟨[⟨some ⟨nm, ags⟩⟩], txt⟩) fuel sent
      = ⟨sent + fuel, [], "Max iterations reached"⟩ := by
  induction fuel generalizing sent with
  | zero => simp [run_loop]
  | succ n ih =>
    rw [run_loop]
    have hmem : ¬ nm ∈ tool_functions := by
      simpa using h
    have hexec : executed_call ⟨[⟨some ⟨nm, ags⟩⟩], txt⟩ = none := by
      simp [executed_call, List.find?, hmem]
    simp only [hexec]
    have hne : ¬ (([⟨some ⟨nm, ags⟩⟩] : List RespPart).filterMap RespPart.function_call).isEmpty = true := by
      simp [List.filterMap]
    rw [if_neg hne, ih (sent + 1)]
    have hn : sent + 1 + n = sent + (n + 1) := by omega
    rw [hn]

theorem find?_eq_some_split {α : Type} (p : α → Bool) (l : List α) (a : α)
    (h : l.find? p = some a) :
    p a = true ∧ ∃ l₁ l₂, l = l₁ ++ a :: l₂ ∧ ∀ x ∈ l₁, p x = false := by
  induction l with
  | nil => simp [List.find?] at h
  | cons b bs ih =>
    by_cases hb : p b
    · rw [List.find?_cons_of_pos _ hb] at h
      obtain rfl : b = a := Option.some.inj h
      exact ⟨hb, [], bs, rfl, by simp⟩
    · rw [List.find?_cons_of_neg _ hb] at h
      obtain ⟨hpa, l₁, l₂, hsplit, hall⟩ := ih h
      refine ⟨hpa, b :: l₁, l₂, by rw [hsplit]; rfl, ?_⟩
      intro x hx
      rcases List.mem_cons.mp hx with rfl | hx'
      · exact Bool.of_not_eq_true hb
      · exact hall x hx'

/-! ### Claim theorems about the loop -/

/-- A model stub that requests the registered tool in every response. -/
def regToolStub : Nat → ModelResponse :=
  fun _ => ⟨[⟨some ⟨"parse_pdf_from_url", [("pdf_url", "http://example.com/a.pdf")]⟩⟩],
            "text after tool"⟩

/-- A model stub whose every response carries a single tool call with an
unregistered name, and text "hello". -/
def unregToolStub : Nat → ModelResponse :=
  fun _ => ⟨[⟨some ⟨"mystery_tool", []⟩⟩], "hello"⟩

/-- Claim C1 as stated is false: with `maxIterations = 1` (so N = 1, N ≥ 1)
and a model whose first response requests the registered tool, the loop
issues 2 send operations — the initial send plus the tool-result relay —
exceeding N. -/
theorem c1_counterexample :
    (run_pdf_agent regToolStub 1).sends = 2 ∧ ¬ ((run_pdf_agent regToolStub 1).sends ≤ 1) := by
  decide

/-- Claim C1, amended: for every maxIterations value and every model
behavior, `run_pdf_agent` issues at most `max 0 N + 1` send operations; the
extra send beyond one per round is the tool-result relay of the final round,
after which the loop returns. -/
theorem c1_send_bound (model : Nat → ModelResponse) (N : Int) :
    (run_pdf_agent model N).sends ≤ N.toNat + 1 := by
  have h := run_loop_sends_le model N.toNat 0
  simpa [run_pdf_agent] using h

/-- Claim C2 as stated is false: with a model stub that always requests the
same registered tool call, `run_pdf_agent` with `maxIterations = 2` returns
after the first round with the second response's text, not the exhausted
sentinel. -/
theorem c2_counterexample :
    (run_pdf_agent regToolStub 2).result = "text after tool" ∧
      (run_pdf_agent regToolStub 2).result ≠ "Max iterations reached" := by
  decide

/-- Claim C2, amended: given a model stub that always requests the same tool
call whose name is NOT registered, `run_pdf_agent` with `maxIterations = N`
completes all rounds (one send each) and returns exactly the literal string
"Max iterations reached"; a registered repeated call instead ends the run in
the first round (see the counterexample). -/
theorem c2_unregistered_sentinel (nm : String) (ags : List (String × String))
    (txt : String) (N : Int) (h : tool_functions.contains nm = false) :
    run_pdf_agent (fun _ => ⟨[⟨some ⟨nm, ags⟩⟩], txt⟩) N
      = ⟨N.toNat, [], "Max iterations reached"⟩ := by
  have := run_loop_all_unregistered nm ags txt h N.toNat 0
  simpa [run_pdf_agent] using this

theorem c2_witness :
    tool_functions.contains "mystery_tool" = false ∧
      run_pdf_agent (fun _ => ⟨[⟨some ⟨"mystery_tool", []⟩⟩], "w"⟩) 3
        = ⟨3, [], "Max iterations reached"⟩ :=
  ⟨by decide, c2_unregistered_sentinel "mystery_tool" [] "w" 3 (by decide)⟩

/-- Claim C3 as stated is false: a response whose only tool call has an
unregistered name is NOT treated as terminal text.  With `maxIterations = 1`
and a stub whose response carries text "hello" and a "mystery_tool" call,
the loop returns the exhausted sentinel rather than "hello". -/
theorem c3_counterexample :
    (run_pdf_agent unregToolStub 1).result = "Max iterations reached" ∧
      (run_pdf_agent unregToolStub 1).result ≠ (unregToolStub 0).text := by
  decide

/-- Claim C3, amended: when a model response contains tool-call parts but
none of their names is registered, the loop neither executes a tool nor
returns that response's text; `has_function_call` is set, so the terminal
text branch is skipped and the loop proceeds to the next iteration. -/
theorem c3_unknown_tool_continues (model : Nat → ModelResponse) (fuel sent : Nat)
    (hne : (model sent).parts.filterMap RespPart.function_call ≠ [])
    (hunreg : ((model sent).parts.filterMap RespPart.function_call).all
      (fun fc => !tool_functions.contains fc.name) = true) :
    run_loop model (fuel + 1) sent = run_loop model fuel (sent + 1) := by
  rw [run_loop]
  have hfind : executed_call (model sent) = none := by
    rw [executed_call, List.find?_eq_none]
    intro x hx
    have := List.all_eq_true.mp hunreg x hx
    simp at this
    simp [this]
  simp only [hfind]
  have hemp : ¬ ((model sent).parts.filterMap RespPart.function_call).isEmpty = true := by
    simpa [List.isEmpty_iff] using hne
  rw [if_neg hemp]

theorem c3_witness :
    (unregToolStub 0).parts.filterMap RespPart.function_call ≠ [] ∧
      ((unregToolStub 0).parts.filterMap RespPart.function_call).all
        (fun fc => !tool_functions.contains fc.name) = true ∧
      run_loop unregToolStub 1 0 = run_loop unregToolStub 0 1 :=
  ⟨by decide, by decide, c3_unknown_tool_continues unregToolStub 0 0 (by decide) (by decide)⟩

/-- The first tool-call part in a response's part order.  This definition
follows the SPEC's words for claim C4 ("the first tool-call part in the
response's part order"), to be compared with `executed_call`, which is read
off the code. -/
def first_tool_call (r : ModelResponse) : Option FunctionCall :=
  (r.parts.filterMap RespPart.function_call).head?

/-- A response whose first tool-call part has an unregistered name and whose
second tool-call part is the registered tool. -/
def mixedResp : ModelResponse :=
  ⟨[⟨some ⟨"mystery_tool", []⟩⟩,
    ⟨some ⟨"parse_pdf_from_url", [("pdf_url", "http://x")]⟩⟩], "t"⟩

/-- Claim C4 as stated is false: on a response whose first tool-call part is
unregistered and whose second is registered, the loop executes the SECOND
tool-call part, not the first one in part order. -/
theorem c4_counterexample :
    executed_call mixedResp
        = some (⟨"parse_pdf_from_url", [("pdf_url", "http://x")]⟩ : FunctionCall) ∧
      first_tool_call mixedResp = some (⟨"mystery_tool", []⟩ : FunctionCall) ∧
      executed_call mixedResp ≠ first_tool_call mixedResp ∧
      (run_pdf_agent (fun _ => mixedResp) 1).executed
        = [(⟨"parse_pdf_from_url", [("pdf_url", "http://x")]⟩ : FunctionCall)] := by
  decide

/-- Claim C4, amended: per round the loop executes at most one tool call,
namely the first tool-call part whose name is registered — tool-call parts
with unregistered names before it are skipped, and all parts after it are
ignored; moreover a whole run executes at most one tool call, because the
loop returns right after relaying the first executed call's result. -/
theorem c4_first_registered :
    (∀ (model : Nat → ModelResponse) (fuel sent : Nat),
      ((run_loop model fuel sent).executed).length ≤ 1) ∧
    (∀ (r : ModelResponse) (fc : FunctionCall), executed_call r = some fc →
      tool_functions.contains fc.name = true ∧
      ∃ l₁ l₂, r.parts.filterMap RespPart.function_call = l₁ ++ fc :: l₂ ∧
        ∀ fc' ∈ l₁, tool_functions.contains fc'.name = false) := by
  constructor
  · exact run_loop_executed_le_one
  · intro r fc h
    exact find?_eq_some_split _ _ _ h

theorem c4_witness :
    executed_call mixedResp
        = some (⟨"parse_pdf_from_url", [("pdf_url", "http://x")]⟩ : FunctionCall) ∧
      (tool_functions.contains ("parse_pdf_from_url" : String) = true ∧
        ∃ l₁ l₂, mixedResp.parts.filterMap RespPart.function_call
            = l₁ ++ (⟨"parse_pdf_from_url", [("pdf_url", "http://x")]⟩ : FunctionCall) :: l₂ ∧
          ∀ fc' ∈ l₁, tool_functions.contains fc'.name = false) :=
  ⟨by decide,
    c4_first_registered.2 mixedResp
      ⟨"parse_pdf_from_url", [("pdf_url", "http://x")]⟩ (by decide)⟩

/-- Claim C9 (implicit): with `max_iterations ≤ 0` the guard
`iteration < max_iterations` fails immediately, so the loop body never runs:
no send operation is issued and the function returns the literal string
"Max iterations reached". -/
theorem c9_nonpos (model : Nat → ModelResponse) (N : Int) (h : N ≤ 0) :
    run_pdf_agent model N = ⟨0, [], "Max iterations reached"⟩ := by
  rw [run_pdf_agent, Int.toNat_of_nonpos h]
  rfl

theorem c9_witness :
    ((-2 : Int) ≤ 0) ∧
      run_pdf_agent (fun _ => ⟨[], "idle"⟩) (-2) = ⟨0, [], "Max iterations reached"⟩ :=
  ⟨by decide, c9_nonpos (fun _ => ⟨[], "idle"⟩) (-2) (by decide)⟩

/-! ### Claim theorems about the tool function -/

/-- Claim C5 as stated is false: on a failing execution the status string the
code returns is the literal "error1", not "error". -/
theorem c5_counterexample :
    (parse_pdf_from_url (fun _ => .raised "connection timed out")
        "https://example.com/x.pdf" false).status = "error1" ∧
      (parse_pdf_from_url (fun _ => .raised "connection timed out")
        "https://example.com/x.pdf" false).status ≠ "error" := by
  decide

/-- Claim C5, amended: when execution fails for any reason,
`parse_pdf_from_url` does not raise; it returns a result whose status is the
literal "error1" (the code's inconsistent tag), whose message is the
human-readable cause `str(e)`, and whose `text_content` payload is the empty
string. -/
theorem c5_error_result (world : String → FetchOutcome) (pdf_url : String)
    (w : Bool) (e : String) (h : world pdf_url = .raised e) :
    parse_pdf_from_url world pdf_url w = ⟨"error1", "", e⟩ := by
  rw [parse_pdf_from_url, h]

theorem c5_witness :
    ((fun _ => FetchOutcome.raised "boom") : String → FetchOutcome) "u"
        = FetchOutcome.raised "boom" ∧
      parse_pdf_from_url (fun _ => FetchOutcome.raised "boom") "u" true
        = ⟨"error1", "", "boom"⟩ :=
  ⟨rfl, c5_error_result (fun _ => FetchOutcome.raised "boom") "u" true "boom" rfl⟩

/-- Claim C10 (implicit): the `write_images` argument is never read in the
body of `parse_pdf_from_url`, so under identical external fetch behavior the
result is the same for any two values of `write_images`. -/
theorem c10_write_images_no_effect (world : String → FetchOutcome)
    (pdf_url : String) (b₁ b₂ : Bool) :
    parse_pdf_from_url world pdf_url b₁ = parse_pdf_from_url world pdf_url b₂ := rfl

/-!
### parse_response (lines 180-199)

Text is modelled as `List Char`.  The two regexes are fixed patterns, so
their Python `re.search` semantics (leftmost match, greedy `\s*` with
backtracking, lazy `(.+?)` before a lookahead, greedy `(.+)`, `re.DOTALL`
so `.` includes newlines) is translated into direct recursive searches:

* `Subject:\s*(.+?)(?=\n\nContent:)` — at the leftmost position where the
  literal `Subject:` matches, `\s*` first takes its maximal whitespace run
  and backtracks one character at a time; for each run, `(.+?)` takes the
  shortest nonempty body after which the literal `\n\nContent:` follows.
* `Content:\s*(.+)` — at the leftmost position where the literal `Content:`
  matches and at least one character follows, the group is the remainder
  minus the maximal whitespace run `\s*` can take while leaving `(.+)` at
  least one character.
* `(https://[^\s]+)` — leftmost `https://` followed by at least one
  non-whitespace character; the group extends through the maximal
  non-whitespace run.
-/

/-- ASCII whitespace, as matched by Python's `\s` and stripped by
`str.strip()` (the non-ASCII whitespace code points are not modelled). -/
def py_isspace (c : Char) : Bool :=
  c = ' ' || c = '\t' || c = '\n' || c = '\r' || c = '\x0b' || c = '\x0c'

/-- Python `str.strip()`: drop leading and trailing whitespace. -/
def pyStrip (l : List Char) : List Char :=
  ((l.dropWhile py_isspace).reverse.dropWhile py_isspace).reverse

/-- The literal `Subject:` of the subject pattern. -/
def subjectMarker : List Char := ['S', 'u', 'b', 'j', 'e', 'c', 't', ':']

/-- The literal `Content:` of the content pattern. -/
def contentMarker : List Char := ['C', 'o', 'n', 't', 'e', 'n', 't', ':']

/-- The literal `\n\nContent:` inside the subject pattern's lookahead. -/
def sepMarker : List Char := '\n' :: '\n' :: contentMarker

/-- The literal `https://` of the url pattern. -/
def urlMarker : List Char := ['h', 't', 't', 'p', 's', ':', '/', '/']

/-- `pat` occurs as a contiguous substring. -/
def hasSub (pat : List Char) : List Char → Bool
  | [] => pat.isEmpty
  | c :: rest => pat.isPrefixOf (c :: rest) || hasSub pat rest

/-- `(.+?)(?=\n\nContent:)`: the shortest nonempty body after which
`\n\nContent:` follows; `none` when no such split exists. -/
def findBody : List Char → Option (List Char)
  | [] => none
  | c :: rest =>
    if sepMarker.isPrefixOf rest then some [c]
    else (findBody rest).map (fun b => c :: b)

/-- `\s*` backtracking: try the whitespace-run lengths `k, k-1, ..., 0`, and
for each run the lazy body search; first success wins. -/
def tryWs (l : List Char) : Nat → Option (List Char)
  | 0 => findBody l
  | k+1 =>
    match findBody (l.drop (k+1)) with
    | some b => some b
    | none => tryWs l k

/-- The part of the subject pattern after the literal `Subject:`, starting
from the maximal whitespace run. -/
def matchSubject (l : List Char) : Option (List Char) :=
  tryWs l (l.takeWhile py_isspace).length

/-- `re.search` for the subject pattern: leftmost start position where the
whole pattern matches; returns `group(1)`. -/
def searchSubject : List Char → Option (List Char)
  | [] => none
  | c :: rest =>
    if subjectMarker.isPrefixOf (c :: rest) then
      match matchSubject ((c :: rest).drop subjectMarker.length) with
      | some b => some b
      | none => searchSubject rest
    else searchSubject rest

/-- `re.search` for the content pattern: leftmost `Content:` with a nonempty
remainder; `group(1)` is the remainder minus the whitespace run `\s*` keeps
after backtracking (all of it, unless the remainder is pure whitespace, in
which case `(+)` keeps the last character). -/
def searchContent : List Char → Option (List Char)
  | [] => none
  | c :: rest =>
    if contentMarker.isPrefixOf (c :: rest) then
      let r := (c :: rest).drop contentMarker.length
      if r.isEmpty then searchContent rest
      else some (r.drop (min (r.takeWhile py_isspace).length (r.length - 1)))
    else searchContent rest

/-- `re.search` for the url pattern: leftmost `https://` followed by at
least one non-whitespace character; the group is the maximal run. -/
def searchUrl : List Char → Option (List Char)
  | [] => none
  | c :: rest =>
    if urlMarker.isPrefixOf (c :: rest) then
      let run := ((c :: rest).drop urlMarker.length).takeWhile (fun d => !py_isspace d)
      if run.isEmpty then searchUrl rest else some (urlMarker ++ run)
    else searchUrl rest

/-- The dict returned by `parse_response` (line 194).  The `time` field is
built from the wall clock, modelled as the extra input `now`. -/
structure ParsedAnswer where
  time : List Char
  subject : List Char
  content : List Char
  url : List Char
deriving DecidableEq

/-- Lines 180-199: `parse_response(text)`.  `subject` falls back to the
empty string, `content` falls back to the WHOLE text (line 191, untrimmed),
`url` falls back to the empty string. -/
def parse_response (now text : List Char) : ParsedAnswer where
  time := ("Updated on: ".toList) ++ now
  subject :=
    match searchSubject text with
    | some g => pyStrip g
    | none => []
  content :=
    match searchContent text with
    | some g => pyStrip g
    | none => text
  url :=
    match searchUrl text with
    | some g => g
    | none => []

/-- The text shape claim C7 quantifies over: `Subject: S\n\nContent: C`. -/
def specTemplate (S C : List Char) : List Char :=
  subjectMarker ++ ' ' :: (S ++ '\n' :: '\n' :: (contentMarker ++ ' ' :: C))

/-! ### Claim theorems about the parser: C6 and C8 -/

theorem searchContent_none_of_not_hasSub (text : List Char)
    (h : hasSub contentMarker text = false) : searchContent text = none := by
  induction text with
  | nil => rfl
  | cons c rest ih =>
    rw [hasSub, Bool.or_eq_false_iff] at h
    rw [searchContent, if_neg (by simp [h.1]), ih h.2]

/-- Claim C6 as stated is false: on the input `" x "` (no `Content:`
marker) the content field is the whole input verbatim, NOT trimmed. -/
theorem c6_counterexample :
    (parse_response [] [' ', 'x', ' ']).content = [' ', 'x', ' '] ∧
      (parse_response [] [' ', 'x', ' ']).content ≠ pyStrip [' ', 'x', ' '] := by
  decide

/-- Claim C6, amended: for every input text lacking a `Content:` marker,
`parse_response` returns a content field equal to the whole input text
VERBATIM (line 191 falls back to `text`, without `.strip()`). -/
theorem c6_fallback (now text : List Char)
    (h : hasSub contentMarker text = false) :
    (parse_response now text).content = text := by
  simp [parse_response, searchContent_none_of_not_hasSub text h]

theorem c6_witness :
    hasSub contentMarker ['h', 'i'] = false ∧
      (parse_response [] ['h', 'i']).content = ['h', 'i'] :=
  ⟨by decide, c6_fallback [] ['h', 'i'] (by decide)⟩

/-- Claim C8: `parse_response` is deterministic in its text-derived fields:
the subject, content and url components do not depend on the wall clock, so
two calls on the same text agree on all three (only `time` may differ). -/
theorem c8_pure_fields (now₁ now₂ text : List Char) :
    (parse_response now₁ text).subject = (parse_response now₂ text).subject ∧
      (parse_response now₁ text).content = (parse_response now₂ text).content ∧
      (parse_response now₁ text).url = (parse_response now₂ text).url :=
  ⟨rfl, rfl, rfl⟩

/-! ### Substring and whitespace lemmas for the C7 proof -/

theorem isPrefixOf_append_self (l t : List Char) : l.isPrefixOf (l ++ t) = true := by
  induction l with
  | nil => simp
  | cons c cs ih => simp [List.isPrefixOf, ih]

theorem isPrefixOf_append_split (pat t B : List Char)
    (h : pat.isPrefixOf (t ++ B) = true) :
    pat.isPrefixOf t = true ∨
      (t.length < pat.length ∧ (pat.drop t.length).isPrefixOf B = true) := by
  induction t generalizing pat with
  | nil =>
    cases pat with
    | nil => exact Or.inl rfl
    | cons p ps => exact Or.inr ⟨by simp, h⟩
  | cons a t' ih =>
    cases pat with
    | nil => exact Or.inl rfl
    | cons p ps =>
      rw [List.cons_append] at h
      simp only [List.isPrefixOf, Bool.and_eq_true] at h
      rcases ih ps h.2 with h1 | ⟨hlt, hdrop⟩
      · exact Or.inl (by simp [List.isPrefixOf, h.1, h1])
      · exact Or.inr ⟨by simpa using Nat.succ_lt_succ hlt, by simpa using hdrop⟩

theorem hasSub_of_isPrefixOf (pat l : List Char) (h : pat.isPrefixOf l = true) :
    hasSub pat l = true := by
  cases l with
  | nil =>
    cases pat with
    | nil => rfl
    | cons p ps => simp [List.isPrefixOf] at h
  | cons c rest => simp [hasSub, h]

theorem hasSub_tail (pat : List Char) (c : Char) (rest : List Char)
    (h : hasSub pat (c :: rest) = false) : hasSub pat rest = false := by
  rw [hasSub, Bool.or_eq_false_iff] at h
  exact h.2

theorem not_isPrefixOf_of_not_hasSub (pat l : List Char)
    (h : hasSub pat l = false) : pat.isPrefixOf l = false := by
  cases hp : pat.isPrefixOf l with
  | false => rfl
  | true => rw [hasSub_of_isPrefixOf pat l hp] at h; cases h

theorem hasSub_of_drop (pat l : List Char) (k : Nat)
    (h : hasSub pat (l.drop k) = true) : hasSub pat l = true := by
  induction l generalizing k with
  | nil => simpa using h
  | cons c rest ih =>
    cases k with
    | zero => simpa using h
    | succ k' =>
      rw [List.drop_succ_cons] at h
      rw [hasSub, ih k' h, Bool.or_true]

theorem hasSub_drop_false (pat l : List Char) (k : Nat)
    (h : hasSub pat l = false) : hasSub pat (l.drop k) = false := by
  cases hd : hasSub pat (l.drop k) with
  | false => rfl
  | true => rw [hasSub_of_drop pat l k hd] at h; cases h

theorem isPrefixOf_drop_of_append (x pat m : List Char)
    (h : (x ++ pat).isPrefixOf m = true) :
    pat.isPrefixOf (m.drop x.length) = true := by
  induction x generalizing m with
  | nil => simpa using h
  | cons a x' ih =>
    cases m with
    | nil => simp [List.isPrefixOf] at h
    | cons b m' =>
      rw [List.cons_append] at h
      simp only [List.isPrefixOf, Bool.and_eq_true] at h
      simpa using ih m' h.2

theorem hasSub_of_hasSub_append_left (x pat l : List Char)
    (h : hasSub (x ++ pat) l = true) : hasSub pat l = true := by
  induction l with
  | nil =>
    rw [hasSub] at h ⊢
    rcases List.append_eq_nil.mp (List.isEmpty_iff.mp h) with ⟨-, h2⟩
    simp [h2]
  | cons c rest ih =>
    rw [hasSub, Bool.or_eq_true] at h
    rcases h with h1 | h2
    · exact hasSub_of_drop pat (c :: rest) x.length
        (hasSub_of_isPrefixOf _ _ (isPrefixOf_drop_of_append x pat (c :: rest) h1))
    · rw [hasSub, ih h2, Bool.or_true]

theorem hasSub_sepMarker_false (S : List Char)
    (h : hasSub contentMarker S = false) : hasSub sepMarker S = false := by
  cases hs : hasSub sepMarker S with
  | false => rfl
  | true =>
    have : hasSub contentMarker S = true :=
      hasSub_of_hasSub_append_left ['\n', '\n'] contentMarker S hs
    rw [this] at h
    cases h

theorem hasSub_append_left_nohead (p0 : Char) (prest A B : List Char)
    (hA : ∀ a ∈ A, (p0 == a) = false)
    (hB : hasSub (p0 :: prest) B = false) :
    hasSub (p0 :: prest) (A ++ B) = false := by
  induction A with
  | nil => simpa using hB
  | cons a A' ih =>
    rw [List.cons_append, hasSub, Bool.or_eq_false_iff]
    refine ⟨?_, ih (fun x hx => hA x (List.mem_cons_of_mem a hx))⟩
    have hne : ¬ p0 = a := by simpa using hA a (List.mem_cons_self a A')
    simp [List.isPrefixOf, hne]

theorem takeWhile_append_of_all {p : Char → Bool} (A B : List Char)
    (hA : ∀ a ∈ A, p a = true) :
    (A ++ B).takeWhile p = A ++ B.takeWhile p := by
  induction A with
  | nil => rfl
  | cons a A' ih =>
    rw [List.cons_append, List.takeWhile_cons, hA a (List.mem_cons_self a A'), if_pos rfl,
      ih (fun x hx => hA x (List.mem_cons_of_mem a hx)), List.cons_append]

theorem dropWhile_idem (p : Char → Bool) (l : List Char) :
    (l.dropWhile p).dropWhile p = l.dropWhile p := by
  induction l with
  | nil => rfl
  | cons c r ih =>
    rw [List.dropWhile_cons]
    cases hp : p c with
    | true => simpa [hp] using ih
    | false => simp [List.dropWhile_cons, hp]

theorem pyStrip_dropWhile (l : List Char) :
    pyStrip (l.dropWhile py_isspace) = pyStrip l := by
  rw [pyStrip, pyStrip, dropWhile_idem]

theorem pyStrip_all_ws (l : List Char) (h : ∀ c ∈ l, py_isspace c = true) :
    pyStrip l = [] := by
  rw [pyStrip, List.dropWhile_eq_nil_iff.mpr h]
  rfl

theorem dropWhile_drop_ws (r : List Char) (k : Nat)
    (hk : k ≤ (r.takeWhile py_isspace).length) :
    (r.drop k).dropWhile py_isspace = r.dropWhile py_isspace := by
  induction r generalizing k with
  | nil => simp
  | cons c rest ih =>
    cases k with
    | zero => rfl
    | succ k' =>
      have hc : py_isspace c = true := by
        cases hp : py_isspace c with
        | true => rfl
        | false => rw [List.takeWhile_cons, hp] at hk; simp at hk
      simp only [List.takeWhile_cons, hc, if_pos, List.length_cons] at hk
      rw [List.drop_succ_cons]
      simp only [List.dropWhile_cons, hc, if_pos]
      exact ih k' (by omega)

theorem pyStrip_drop_ws (r : List Char) (k : Nat)
    (hk : k ≤ (r.takeWhile py_isspace).length) :
    pyStrip (r.drop k) = pyStrip r := by
  rw [pyStrip, pyStrip, dropWhile_drop_ws r k hk]

theorem pyStrip_cons_ws (c : Char) (l : List Char) (hc : py_isspace c = true) :
    pyStrip (c :: l) = pyStrip l := by
  rw [pyStrip, pyStrip]
  simp only [List.dropWhile_cons, hc, if_pos]

theorem hasSub_dropWhile_false (pat : List Char) (p : Char → Bool) (l : List Char)
    (h : hasSub pat l = false) : hasSub pat (l.dropWhile p) = false := by
  induction l with
  | nil => simpa using h
  | cons c r ih =>
    rw [List.dropWhile_cons]
    cases hp : p c with
    | true => simpa using ih (hasSub_tail _ _ _ h)
    | false => simpa using h

theorem dropWhile_head_false (p : Char → Bool) (l : List Char) (s0 : Char)
    (S2 : List Char) (h : l.dropWhile p = s0 :: S2) : p s0 = false := by
  induction l with
  | nil => simp at h
  | cons c r ih =>
    rw [List.dropWhile_cons] at h
    cases hp : p c with
    | true => rw [hp] at h; exact ih (by simpa using h)
    | false => rw [hp] at h; simp at h; rw [← h.1]; exact hp

/-! ### Search lemmas for the C7 proof -/

theorem searchContent_skip_nochar (A B : List Char)
    (hA : ∀ a ∈ A, ('C' == a) = false) :
    searchContent (A ++ B) = searchContent B := by
  induction A with
  | nil => rfl
  | cons a A' ih =>
    have hne : ¬ 'C' = a := by simpa using hA a (List.mem_cons_self a A')
    rw [List.cons_append, searchContent,
      if_neg (by simp [contentMarker, List.isPrefixOf, hne])]
    exact ih (fun x hx => hA x (List.mem_cons_of_mem a hx))

theorem searchContent_append_skip (S B : List Char)
    (hS : hasSub contentMarker S = false)
    (hB : ∀ k, 0 < k → k < contentMarker.length →
      (contentMarker.drop k).isPrefixOf B = false) :
    searchContent (S ++ B) = searchContent B := by
  induction S with
  | nil => rfl
  | cons c S' ih =>
    have hpre : contentMarker.isPrefixOf (c :: (S' ++ B)) = false := by
      cases hp : contentMarker.isPrefixOf (c :: (S' ++ B)) with
      | false => rfl
      | true =>
        exfalso
        rcases isPrefixOf_append_split contentMarker (c :: S') B (by exact hp) with h1 | ⟨hlt, hdrop⟩
        · have h2 := hasSub_of_isPrefixOf _ _ h1
          rw [hS] at h2; cases h2
        · rw [hB (c :: S').length (by simp) hlt] at hdrop; cases hdrop
    rw [List.cons_append, searchContent, if_neg (by simp [hpre])]
    exact ih (hasSub_tail _ _ _ hS)

theorem findBody_none_of_not_hasSub (l : List Char)
    (h : hasSub sepMarker (l.drop 1) = false) : findBody l = none := by
  induction l with
  | nil => rfl
  | cons c rest ih =>
    have h1 : hasSub sepMarker rest = false := by simpa using h
    rw [findBody, if_neg (by simp [not_isPrefixOf_of_not_hasSub _ _ h1]),
      ih (hasSub_drop_false _ _ 1 h1)]
    rfl

theorem findBody_append_seq (body tail : List Char)
    (hT : sepMarker.isPrefixOf tail = true)
    (hTs : ∀ k, 0 < k → k < sepMarker.length →
      (sepMarker.drop k).isPrefixOf tail = false)
    (hne : body ≠ [])
    (hS : hasSub sepMarker body = false) :
    findBody (body ++ tail) = some body := by
  induction body with
  | nil => exact absurd rfl hne
  | cons b body' ih =>
    cases body' with
    | nil =>
      rw [List.cons_append, List.nil_append, findBody, if_pos hT]
    | cons b2 body'' =>
      have hpre : sepMarker.isPrefixOf (b2 :: (body'' ++ tail)) = false := by
        cases hp : sepMarker.isPrefixOf (b2 :: (body'' ++ tail)) with
        | false => rfl
        | true =>
          exfalso
          rcases isPrefixOf_append_split sepMarker (b2 :: body'') tail (by exact hp) with h1 | ⟨hlt, hdrop⟩
          · have h2 := hasSub_of_isPrefixOf _ _ h1
            rw [hasSub_tail _ _ _ hS] at h2; cases h2
          · rw [hTs (b2 :: body'').length (by simp) hlt] at hdrop; cases hdrop
      have ih' := ih (by simp) (hasSub_tail _ _ _ hS)
      rw [List.cons_append, findBody, if_neg (by simp [hpre]), ih']
      rfl

theorem tryWs_hit (l : List Char) (K k : Nat) (b : List Char)
    (hk : k ≤ K)
    (hsome : findBody (l.drop k) = some b)
    (hnone : ∀ j, k < j → j ≤ K → findBody (l.drop j) = none) :
    tryWs l K = some b := by
  induction K with
  | zero =>
    have hk0 : k = 0 := Nat.le_zero.mp hk
    subst hk0
    rw [tryWs]
    simpa using hsome
  | succ K' ih =>
    by_cases hkK : k = K' + 1
    · subst hkK
      rw [tryWs]
      simp only [hsome]
    · have h1 : findBody (l.drop (K' + 1)) = none := hnone (K' + 1) (by omega) (by omega)
      rw [tryWs]
      simp only [h1]
      exact ih (by omega) (fun j hj1 hj2 => hnone j hj1 (by omega))

theorem contentMarker_drop_not_pre_nl (X : List Char) (k : Nat)
    (h0 : 0 < k) (h8 : k < contentMarker.length) :
    (contentMarker.drop k).isPrefixOf ('\n' :: X) = false := by
  have h8' : k < 8 := by simpa [contentMarker] using h8
  interval_cases k <;> simp [contentMarker, List.isPrefixOf]

theorem sep_drop_not_pre (X : List Char) (k : Nat)
    (h0 : 0 < k) (h9 : k < sepMarker.length) :
    (sepMarker.drop k).isPrefixOf (sepMarker ++ ' ' :: X) = false := by
  have h9' : k < 10 := by simpa [sepMarker, contentMarker] using h9
  interval_cases k <;> simp [sepMarker, contentMarker, List.isPrefixOf]

theorem bool_ne_true {b : Bool} (h : b = false) : ¬ b = true := by simp [h]

theorem takeWhile_append_keep (p : Char → Bool) (S B : List Char)
    (h : S.dropWhile p ≠ []) :
    (S ++ B).takeWhile p = S.takeWhile p := by
  induction S with
  | nil => simp at h
  | cons c S' ih =>
    rw [List.cons_append, List.takeWhile_cons, List.takeWhile_cons]
    cases hp : p c with
    | true =>
      have h' : S'.dropWhile p ≠ [] := by
        rw [List.dropWhile_cons, hp] at h
        simpa using h
      simp [ih h']
    | false => simp

theorem drop_len_takeWhile_append (p : Char → Bool) (S B : List Char) :
    (S ++ B).drop ((S.takeWhile p).length) = S.dropWhile p ++ B := by
  induction S with
  | nil => simp
  | cons c S' ih =>
    rw [List.cons_append, List.takeWhile_cons, List.dropWhile_cons]
    cases hp : p c with
    | true =>
      rw [if_pos rfl, if_pos rfl, List.length_cons, List.drop_succ_cons]
      exact ih
    | false =>
      rw [if_neg (by simp), if_neg (by simp)]
      simp

/-- Evaluation of the content search at the marker: `group(1)` starts after
the whitespace run of the remainder `' ' :: C`. -/
theorem searchContent_at_marker (C : List Char) :
    searchContent (contentMarker ++ ' ' :: C)
      = some ((' ' :: C).drop
          (min ((' ' :: C).takeWhile py_isspace).length ((' ' :: C).length - 1))) := rfl

theorem content_group_pyStrip (C : List Char) :
    pyStrip ((' ' :: C).drop
        (min ((' ' :: C).takeWhile py_isspace).length ((' ' :: C).length - 1)))
      = pyStrip C := by
  rw [pyStrip_drop_ws _ _ (Nat.min_le_left _ _)]
  exact pyStrip_cons_ws ' ' C (by decide)

/-- On a `Subject: S\n\nContent: C` input whose S part contains no
`Content:` marker, the content search finds the real marker and its group
strips to `C.strip()`. -/
theorem content_template (S C : List Char)
    (hS : hasSub contentMarker S = false) :
    ∃ g, searchContent (specTemplate S C) = some g ∧ pyStrip g = pyStrip C := by
  have e1 : specTemplate S C
      = (subjectMarker ++ [' ']) ++ (S ++ ('\n' :: '\n' :: (contentMarker ++ ' ' :: C))) := by
    simp [specTemplate]
  rw [e1, searchContent_skip_nochar _ _ (by decide),
    searchContent_append_skip S _ hS
      (fun k h0 h8 => contentMarker_drop_not_pre_nl _ k h0 h8),
    show ('\n' :: '\n' :: (contentMarker ++ ' ' :: C))
        = ['\n', '\n'] ++ (contentMarker ++ ' ' :: C) from rfl,
    searchContent_skip_nochar _ _ (by decide),
    searchContent_at_marker C]
  exact ⟨_, rfl, content_group_pyStrip C⟩

/-- `findBody` fails on the region after the full separator: `Content: C`
holds no `\n\nContent:` occurrence when `C` has none. -/
theorem findBody_tail_a (C : List Char) (hC : hasSub sepMarker C = false) :
    findBody (contentMarker ++ ' ' :: C) = none := by
  apply findBody_none_of_not_hasSub
  exact hasSub_append_left_nohead '\n' ('\n' :: contentMarker)
    ['o', 'n', 't', 'e', 'n', 't', ':', ' '] C (by decide) hC

theorem findBody_tail_b (C : List Char) (hC : hasSub sepMarker C = false) :
    findBody ('\n' :: (contentMarker ++ ' ' :: C)) = none := by
  have hsub : hasSub sepMarker (contentMarker ++ ' ' :: C) = false :=
    hasSub_append_left_nohead '\n' ('\n' :: contentMarker)
      (contentMarker ++ [' ']) C (by decide) hC
  rw [findBody, if_neg (bool_ne_true (not_isPrefixOf_of_not_hasSub _ _ hsub)),
    findBody_tail_a C hC]
  rfl

theorem findBody_tail_c (C : List Char) (hC : hasSub sepMarker C = false) :
    findBody ('\n' :: '\n' :: (contentMarker ++ ' ' :: C)) = none := by
  rw [findBody, if_neg (by simp [sepMarker, contentMarker, List.isPrefixOf]),
    findBody_tail_b C hC]
  rfl

/-- The subject match after the `Subject:` literal on a template input: for
any whitespace run the engine settles on, the matched group strips to
`S.strip()`.  Case split: if `S` has a non-whitespace character, the maximal
`\s*` run already admits a body ending right at the separator; if `S` is all
whitespace, `\s*` backtracks three steps until a one-character whitespace
body is left before the separator. -/
theorem matchSubject_template (S C : List Char)
    (hS : hasSub contentMarker S = false)
    (hC : hasSub sepMarker C = false) :
    ∃ b, matchSubject (' ' :: (S ++ ('\n' :: '\n' :: (contentMarker ++ ' ' :: C))))
        = some b ∧ pyStrip b = pyStrip S := by
  have hsepS : hasSub sepMarker S = false := hasSub_sepMarker_false S hS
  have hT0 : sepMarker.isPrefixOf ('\n' :: '\n' :: (contentMarker ++ ' ' :: C)) = true :=
    isPrefixOf_append_self sepMarker (' ' :: C)
  have hTs0 : ∀ k, 0 < k → k < sepMarker.length →
      (sepMarker.drop k).isPrefixOf ('\n' :: '\n' :: (contentMarker ++ ' ' :: C)) = false :=
    fun k h0 h9 => sep_drop_not_pre C k h0 h9
  cases hsw : S.dropWhile py_isspace with
  | cons s0 S2 =>
    refine ⟨s0 :: S2, ?_, ?_⟩
    · have hTW : (' ' :: (S ++ ('\n' :: '\n' :: (contentMarker ++ ' ' :: C)))).takeWhile py_isspace
          = ' ' :: S.takeWhile py_isspace := by
        rw [List.takeWhile_cons, if_pos (show py_isspace ' ' = true from by decide),
          takeWhile_append_keep py_isspace S _ (by simp [hsw])]
      rw [matchSubject, hTW]
      apply tryWs_hit _ _ ((' ' :: S.takeWhile py_isspace).length) (s0 :: S2) le_rfl
      · rw [List.length_cons, List.drop_succ_cons, drop_len_takeWhile_append, hsw]
        refine findBody_append_seq (s0 :: S2) _ hT0 hTs0 (by simp) ?_
        rw [← hsw]
        exact hasSub_dropWhile_false _ _ _ hsepS
      · intro j hj1 hj2
        omega
    · rw [← hsw]
      exact pyStrip_dropWhile S
  | nil =>
    have hall : ∀ c ∈ S, py_isspace c = true := List.dropWhile_eq_nil_iff.mp hsw
    rcases List.eq_nil_or_concat (' ' :: S) with hnil | ⟨P', w, hPw⟩
    · simp at hnil
    · have hPw' : ' ' :: S = P' ++ [w] := by simpa using hPw
      have hw : py_isspace w = true := by
        have hwmem : w ∈ ' ' :: S := by
          rw [hPw']
          exact List.mem_append_right P' (by simp)
        rcases List.mem_cons.mp hwmem with rfl | h
        · decide
        · exact hall w h
      have hlen : P'.length = S.length := by
        have hc := congrArg List.length hPw'
        simp at hc
        omega
      have hR : ' ' :: (S ++ ('\n' :: '\n' :: (contentMarker ++ ' ' :: C)))
          = P' ++ (w :: ('\n' :: '\n' :: (contentMarker ++ ' ' :: C))) := by
        rw [← List.cons_append, hPw', List.append_assoc]
        rfl
      refine ⟨[w], ?_, ?_⟩
      · have hTW : (' ' :: (S ++ ('\n' :: '\n' :: (contentMarker ++ ' ' :: C)))).takeWhile py_isspace
            = ' ' :: (S ++ ['\n', '\n']) := by
          rw [List.takeWhile_cons, if_pos (show py_isspace ' ' = true from by decide),
            takeWhile_append_of_all S _ hall]
          rfl
        rw [matchSubject, hTW]
        apply tryWs_hit _ _ P'.length [w] ?_ ?_ ?_
        · simp
          omega
        · rw [hR, List.drop_left, findBody, if_pos hT0]
        · intro j hj1 hj2
          simp at hj2
          have hcase : j = P'.length + 1 ∨ j = P'.length + 2 ∨ j = P'.length + 3 := by omega
          rw [hR]
          rcases hcase with rfl | rfl | rfl
          · rw [List.drop_append 1]
            simp only [List.drop_succ_cons, List.drop_zero]
            exact findBody_tail_c C hC
          · rw [List.drop_append 2]
            simp only [List.drop_succ_cons, List.drop_zero]
            exact findBody_tail_b C hC
          · rw [List.drop_append 3]
            simp only [List.drop_succ_cons, List.drop_zero]
            exact findBody_tail_a C hC
      · rw [pyStrip_all_ws [w] (by intro c hc; simp at hc; subst hc; exact hw),
          pyStrip_all_ws S hall]

/-- The subject search matches at position 0 of `Subject: ...` and returns
whatever the after-marker match produces. -/
theorem searchSubject_cons_marker (R b : List Char)
    (h : matchSubject R = some b) :
    searchSubject (subjectMarker ++ R) = some b := by
  rw [show subjectMarker ++ R = 'S' :: (['u', 'b', 'j', 'e', 'c', 't', ':'] ++ R) from rfl,
    searchSubject,
    if_pos (show subjectMarker.isPrefixOf ('S' :: (['u', 'b', 'j', 'e', 'c', 't', ':'] ++ R))
        = true from isPrefixOf_append_self subjectMarker R)]
  have e : ('S' :: (['u', 'b', 'j', 'e', 'c', 't', ':'] ++ R)).drop subjectMarker.length = R := rfl
  rw [e, h]

/-- Claim C7 as stated is false on two instances.  (a) With
S = "X\n\nContent:Y" (a subject that itself contains a `Content:` marker)
and C = "Z", the parsed subject is "X", not S.trim(), and the parsed content
is "Y\n\nContent: Z", not C.trim().  (b) With S = "" and
C = "Q\n\nContent:R" (a content containing a blank-line-`Content:` marker),
the greedy `\s*` run skips past the intended separator and the parsed
subject is "Content: Q", not "". -/
theorem c7_counterexample :
    (parse_response []
        (specTemplate ['X', '\n', '\n', 'C', 'o', 'n', 't', 'e', 'n', 't', ':', 'Y'] ['Z'])).subject
      ≠ pyStrip ['X', '\n', '\n', 'C', 'o', 'n', 't', 'e', 'n', 't', ':', 'Y'] ∧
    (parse_response []
        (specTemplate ['X', '\n', '\n', 'C', 'o', 'n', 't', 'e', 'n', 't', ':', 'Y'] ['Z'])).content
      ≠ pyStrip ['Z'] ∧
    (parse_response []
        (specTemplate [] ['Q', '\n', '\n', 'C', 'o', 'n', 't', 'e', 'n', 't', ':', 'R'])).subject
      ≠ pyStrip [] := by
  decide

/-- Claim C7, amended: for every input of the form `Subject: S\n\nContent: C`
where S contains no `Content:` substring and C contains no `\n\nContent:`
substring, `parse_response` returns subject = S trimmed and content = C
trimmed.  (Without the two substring conditions the markers the regexes
lock onto can sit inside S or C, see the counterexamples.) -/
theorem c7_subject_content (now S C : List Char)
    (hS : hasSub contentMarker S = false)
    (hC : hasSub sepMarker C = false) :
    (parse_response now (specTemplate S C)).subject = pyStrip S ∧
      (parse_response now (specTemplate S C)).content = pyStrip C := by
  obtain ⟨b, hb, hbs⟩ := matchSubject_template S C hS hC
  obtain ⟨g, hg, hgs⟩ := content_template S C hS
  have hsub : searchSubject (specTemplate S C) = some b := by
    have e : specTemplate S C
        = subjectMarker ++ (' ' :: (S ++ ('\n' :: '\n' :: (contentMarker ++ ' ' :: C)))) := rfl
    rw [e]
    exact searchSubject_cons_marker _ b hb
  constructor
  · simp [parse_response, hsub, hbs]
  · simp [parse_response, hg, hgs]

theorem c7_witness :
    hasSub contentMarker ['H', 'i'] = false ∧
      hasSub sepMarker ['n', 'e', 'w', 's', ' '] = false ∧
      (parse_response [] (specTemplate ['H', 'i'] ['n', 'e', 'w', 's', ' '])).subject
        = pyStrip ['H', 'i'] ∧
      (parse_response [] (specTemplate ['H', 'i'] ['n', 'e', 'w', 's', ' '])).content
        = pyStrip ['n', 'e', 'w', 's', ' '] :=
  ⟨by decide, by decide,
    (c7_subject_content [] ['H', 'i'] ['n', 'e', 'w', 's', ' '] (by decide) (by decide)).1,
    (c7_subject_content [] ['H', 'i'] ['n', 'e', 'w', 's', ' '] (by decide) (by decide)).2⟩

end DemoAgent
